import Mathlib

/-!
Verification of the QNote crawler backend (`src/app.py`).

The repository is a single-file FastAPI service that crawls a book site:
it discovers `/detail/<id>` links on a homepage, fetches detail pages and
chapter pages, extracts fields from loosely structured HTML and assembles
`BookResult` records.

Shallow-embedding conventions used throughout this file:

* The HTTP transport (`httpx`) is an external collaborator (spec §1); a
  crawl run is parametrised by an oracle `fetch : String → Option String`
  standing for `fetch_text`: `none` models a timeout / exception /
  non-200 status, `some s` models a 200 response with body `s`.
* The HTML parser (BeautifulSoup) is likewise declared out of scope by
  the spec ("assumed to expose select, find, get_text, remove node").
  Parsed pages are modelled by the `Node` tree below, and a crawl run is
  parametrised by an oracle `parse : String → Doc`.  The source sometimes
  re-serialises nodes with `str(n)` and re-parses the concatenation
  (`clean_html(''.join(str(n) ...))`); since BeautifulSoup's minimal
  entity escaping makes `parse (render n) = n` for trees it produced,
  that composition is modelled directly on the node list (`cleanHtml`).
* `random.shuffle` is modelled by a parameter
  `shuffle : List String → List String`; theorems that need it assume it
  permutes its input.
* Python `str` operations are re-implemented on `List Char` (code
  points, exactly like Python's `len`/slicing).  `str.strip` is modelled
  on the ASCII whitespace set; `str.splitlines` on the `\n`, `\r`,
  `\r\n` boundaries (the further Unicode boundary characters do not
  appear in any statement below).
* Machine integers do not occur (Python ints are unbounded); counts are
  `Nat`.
-/

/-! ## Python string primitives -/

/-- The whitespace set of `str.strip` (restricted to ASCII). -/
def pyWhitespace (c : Char) : Bool :=
  c = ' ' || c = '\t' || c = '\n' || c = '\x0d' || c = '\x0b' || c = '\x0c'

/-- `str.strip()` on code-point lists. -/
def pyStripL (l : List Char) : List Char :=
  ((l.dropWhile pyWhitespace).reverse.dropWhile pyWhitespace).reverse

/-- `str.strip()`. -/
def pyStrip (s : String) : String := ⟨pyStripL s.data⟩

/-- `str.rstrip()` on code-point lists. -/
def pyRstripL (l : List Char) : List Char :=
  (l.reverse.dropWhile pyWhitespace).reverse

/-- Is `c` one of the line boundaries handled by this model of
`str.splitlines` (`\n`, `\r`)? -/
def isLineBreak (c : Char) : Bool := c = '\n' || c = '\x0d'

/-- Consume the `\n` of a `\r\n` pair, if present. -/
def dropOneNl : List Char → List Char
  | [] => []
  | c :: r => if c = '\n' then r else c :: r

/-- Fuelled `str.splitlines()` (boundaries `\n`, `\r`, `\r\n`; no
trailing empty line).  At least one character is consumed per step, so
the input length always suffices as fuel. -/
def splitlinesF : Nat → List Char → List (List Char)
  | _, [] => []
  | 0, l => [l]
  | fuel + 1, c :: rest =>
    if c = '\n' then [] :: splitlinesF fuel rest
    else if c = '\x0d' then [] :: splitlinesF fuel (dropOneNl rest)
    else
      match splitlinesF fuel rest with
      | [] => [[c]]
      | l :: ls => (c :: l) :: ls

/-- `str.splitlines()` on code-point lists. -/
def splitlinesL (l : List Char) : List (List Char) := splitlinesF l.length l

/-- `str.split('\n')` on code-point lists (always at least one field). -/
def splitNlL : List Char → List (List Char)
  | [] => [[]]
  | c :: rest =>
    if c = '\n' then [] :: splitNlL rest
    else
      match splitNlL rest with
      | [] => [[c]]
      | l :: ls => (c :: l) :: ls

/-- `List.isPrefixOf` specialised by hand so every theorem below reduces
in the kernel. -/
def prefixOfL : List Char → List Char → Bool
  | [], _ => true
  | _ :: _, [] => false
  | p :: ps, c :: cs => p = c && prefixOfL ps cs

/-- Substring test on code-point lists (Python's `in`). -/
def containsL (pat : List Char) : List Char → Bool
  | [] => prefixOfL pat []
  | c :: rest => prefixOfL pat (c :: rest) || containsL pat rest

/-- Python's `sub in s`. -/
def strContains (s sub : String) : Bool := containsL sub.data s.data

/-- Python's `s.startswith(p)`. -/
def strStartsWith (s p : String) : Bool := prefixOfL p.data s.data

/-- Order-preserving deduplication, first occurrence kept:
`dict.fromkeys` (and the insertion-order model of the `links` set). -/
def dedupKeepFirst : List String → List String :=
  go []
where
  go : List String → List String → List String
  | _, [] => []
  | seen, x :: xs => if x ∈ seen then go seen xs else x :: go (x :: seen) xs

/-! ## The HTML node model

BeautifulSoup documents are modelled as ordered trees.  An element
carries its tag, its attribute list (in source order, as rendered) and
its children; a text node carries the already-entity-decoded string, as
BeautifulSoup stores it. -/

inductive Node where
  | text (s : String)
  | elem (tag : String) (attrs : List (String × String)) (children : List Node)

/-- A parsed document: the soup's top-level node list. -/
abbrev Doc := List Node

/-- Attribute lookup. -/
def Node.attrVal (n : Node) (k : String) : Option String :=
  match n with
  | .text _ => none
  | .elem _ attrs _ => (attrs.find? (fun p => p.1 = k)).map (fun p => p.2)

/-- Split an attribute value on single spaces (the multi-valued `class`
attribute). -/
def splitSpacesL : List Char → List (List Char)
  | [] => [[]]
  | c :: rest =>
    if c = ' ' then [] :: splitSpacesL rest
    else
      match splitSpacesL rest with
      | [] => [[c]]
      | l :: ls => (c :: l) :: ls

/-- Does element `n` carry CSS class `c`? -/
def Node.hasClass (n : Node) (c : String) : Bool :=
  match n.attrVal "class" with
  | some v => (splitSpacesL v.data).contains c.data
  | none => false

/-- Is `n` an element with tag `t`? -/
def Node.isTag (n : Node) (t : String) : Bool :=
  match n with
  | .text _ => false
  | .elem tag _ _ => tag = t

mutual

/-- All elements of the subtree rooted at `n` satisfying `p`, in document
(pre-)order: `soup.select` for a simple selector. -/
def selectPred (p : Node → Bool) : Node → List Node
  | .text _ => []
  | .elem t a cs => (if p (.elem t a cs) then [.elem t a cs] else []) ++ selectPredL p cs

/-- `selectPred` over a node list. -/
def selectPredL (p : Node → Bool) : List Node → List Node
  | [] => []
  | n :: ns => selectPred p n ++ selectPredL p ns

end

mutual

/-- The text-node strings of a subtree, in document order
(BeautifulSoup's `.strings`). -/
def textsOf : Node → List String
  | .text s => [s]
  | .elem _ _ cs => textsOfL cs

/-- `textsOf` over a node list. -/
def textsOfL : List Node → List String
  | [] => []
  | n :: ns => textsOf n ++ textsOfL ns

end

/-- `tag.get_text()` — all descendant strings joined with `''`. -/
def getTextPlainL (ns : List Node) : String := String.join (textsOfL ns)

/-- `tag.get_text()` of a single node. -/
def Node.getTextPlain (n : Node) : String := String.join (textsOf n)

/-- `soup.get_text(separator=sep)`. -/
def getTextSep (ns : List Node) (sep : String) : String :=
  String.intercalate sep (textsOfL ns)

/-! ## `html_to_text` (src/app.py lines 90–96)

`html_to_text` parses an arbitrary *string*, so a string-level model of
the external parser's text extraction is needed.  The model below covers
the fragment exercised here: a `<` opening a tag (next char a letter,
`/`, `!` or `?`) hides everything to the following `>`; any other
character is data; character references `&amp; &lt; &gt; &quot; &apos;`
are decoded, an unmatched `&` stays literal.  (html.parser's handling of
comments containing `>`, of semicolon-less references and of an
unterminated tag at EOF is not modelled and not exercised.) -/

/-- The named character reference starting right after a `&`, with the
decoded character and the remaining input. -/
def entityAt (rest : List Char) : Option (Char × List Char) :=
  match rest with
  | 'a' :: 'm' :: 'p' :: ';' :: r => some ('&', r)
  | 'l' :: 't' :: ';' :: r => some ('<', r)
  | 'g' :: 't' :: ';' :: r => some ('>', r)
  | 'q' :: 'u' :: 'o' :: 't' :: ';' :: r => some ('"', r)
  | 'a' :: 'p' :: 'o' :: 's' :: ';' :: r => some ('\x27', r)
  | _ => none

/-- Fuelled reference decoding (the fuel is spent at least one
character per step, so the input length always suffices). -/
def decodeEntF : Nat → List Char → List Char
  | _, [] => []
  | 0, l => l
  | fuel + 1, c :: rest =>
    if c = '&' then
      match entityAt rest with
      | some (d, r) => d :: decodeEntF fuel r
      | none => '&' :: decodeEntF fuel rest
    else c :: decodeEntF fuel rest

/-- Decode the basic named character references, as `html.unescape`
does on data. -/
def decodeEntitiesL (l : List Char) : List Char := decodeEntF l.length l

/-- Does the character after `<` begin a markup construct? -/
def isTagOpener (l : List Char) : Bool :=
  match l with
  | [] => false
  | c :: _ => c.isAlpha || c = '/' || c = '!' || c = '?'

/-- Drop through the first `>` (the body of a tag). -/
def dropTag : List Char → List Char
  | [] => []
  | c :: rest => if c = '>' then rest else dropTag rest

theorem dropTag_length_le (l : List Char) : (dropTag l).length ≤ l.length := by
  induction l with
  | nil => simp [dropTag]
  | cons c rest ih =>
    rw [dropTag]
    split
    · exact Nat.le_succ _
    · exact Nat.le_trans ih (Nat.le_succ _)

/-- Prepend a character to the first chunk. -/
def consChunk (c : Char) : List (List Char) → List (List Char)
  | [] => [[c]]
  | l :: ls => (c :: l) :: ls

/-- Split markup into its data chunks (tags removed), in document
order; fuelled so that it is structurally recursive (the fuel is spent
one character per step at least, so `l.length` always suffices).  A `<`
that does not open markup is flushed as a data chunk of its own, as
`html.parser` does. -/
def dataChunksF : Nat → List Char → List (List Char)
  | _, [] => [[]]
  | 0, _ :: _ => [[]]
  | fuel + 1, c :: rest =>
    if c = '<' && isTagOpener rest then
      [] :: dataChunksF fuel (dropTag rest)
    else if c = '<' then
      [] :: ['<'] :: dataChunksF fuel rest
    else
      consChunk c (dataChunksF fuel rest)

/-- The data chunks of a markup string. -/
def dataChunks (l : List Char) : List (List Char) := dataChunksF l.length l

/-- `BeautifulSoup(html, 'html.parser').get_text(separator='\n')` on a
raw string: data chunks, entity-decoded, joined with `\n`.  (Adjacent or
empty chunks join slightly differently from BeautifulSoup's merged
strings, but the difference is invisible once `html_to_text` splits the
result back into lines and drops the empty ones.) -/
def getTextOfMarkup (s : String) : List Char :=
  (List.intercalate ['\n'] ((dataChunks s.data).map decodeEntitiesL))

/-- The whitespace-normalisation half of `html_to_text`: strip each
line, drop the empties, rejoin with blank-line separators. -/
def normalizeLinesL (l : List Char) : List Char :=
  List.intercalate ['\n', '\n']
    (((splitlinesL l).map pyStripL).filter (fun ln => ln ≠ []))

/-- `html_to_text` (src/app.py lines 90–96): parse, `get_text('\n')`,
strip lines, drop empty lines, join with `'\n\n'`. -/
def html_to_text (s : String) : String :=
  ⟨normalizeLinesL (getTextOfMarkup s)⟩

/-! ## `sanitize_filename` (src/app.py lines 99–108)

`unicodedata.normalize('NFKD', ·)` is an external library call; the
function is therefore parametrised by the normalisation `nfkd`.  Every
theorem below holds for *all* `nfkd` because the slip through which a
normalisation could matter (introducing a forbidden character) is closed
by the source itself: the replacement and removal steps run after it.
Concrete evaluations instantiate `nfkd := id`, faithful for the ASCII
inputs used (NFKD is the identity there). -/

/-- The character class of `re.sub(r'[<>:"|?*]', '', name)`. -/
def winForbidden (c : Char) : Bool :=
  c = '<' || c = '>' || c = ':' || c = '"' || c = '|' || c = '?' || c = '*'

/-- `sanitize_filename` (src/app.py lines 99–108). -/
def sanitize_filename (nfkd : String → String) (name : String) (maxLen : Nat) : String :=
  let n1 := nfkd name
  let n2 := n1.data.map (fun c => if c = '/' || c = '\\' then ' ' else c)
  let n3 := n2.filter (fun c => !winForbidden c)
  let n4 := pyStripL n3
  let n5 := if n4.length > maxLen then pyRstripL (n4.take maxLen) else n4
  if n5 = [] then "untitled" else ⟨n5⟩

/-! ## Rendering and `clean_html` (src/app.py lines 80–87)

`str(node)` with BeautifulSoup's minimal formatter: `& < >` escaped in
text, `& "` escaped in attribute values, void elements self-closed. -/

/-- Minimal-formatter escaping of one text character. -/
def escapeChar (c : Char) : List Char :=
  if c = '&' then ['&', 'a', 'm', 'p', ';']
  else if c = '<' then ['&', 'l', 't', ';']
  else if c = '>' then ['&', 'g', 't', ';']
  else [c]

/-- Minimal-formatter escaping of text nodes. -/
def escapeTextL (l : List Char) : List Char := (l.map escapeChar).flatten

/-- Minimal-formatter escaping inside attribute values. -/
def escapeAttrL : List Char → List Char
  | [] => []
  | '&' :: rest => '&' :: 'a' :: 'm' :: 'p' :: ';' :: escapeAttrL rest
  | '"' :: rest => '&' :: 'q' :: 'u' :: 'o' :: 't' :: ';' :: escapeAttrL rest
  | c :: rest => c :: escapeAttrL rest

/-- Render one attribute as ` k="v"`. -/
def renderAttr (p : String × String) : String :=
  " " ++ p.1 ++ "=\"" ++ ⟨escapeAttrL p.2.data⟩ ++ "\""

/-- HTML void elements (the ones this development meets). -/
def voidTags : List String := ["img", "br", "hr", "meta", "input"]

mutual

/-- `str(node)`. -/
def Node.render : Node → String
  | .text s => ⟨escapeTextL s.data⟩
  | .elem t attrs cs =>
    if voidTags.contains t then
      "<" ++ t ++ String.join (attrs.map renderAttr) ++ "/>"
    else
      "<" ++ t ++ String.join (attrs.map renderAttr) ++ ">" ++
        Node.renderL cs ++ "</" ++ t ++ ">"

/-- `''.join(str(n) for n in ns)`. -/
def Node.renderL : List Node → String
  | [] => ""
  | n :: ns => Node.render n ++ Node.renderL ns

end

mutual

/-- The node transformation of `clean_html` (src/app.py lines 80–87):
every `img` removed (`decompose`), every `a` replaced by its text
(`replace_with(a.get_text())`), everything else kept. -/
def cleanNode : Node → List Node
  | .text s => [.text s]
  | .elem t a cs =>
    if t = "img" then []
    else if t = "a" then [.text (getTextPlainL cs)]
    else [.elem t a (cleanNodeL cs)]

/-- `cleanNode` over a node list. -/
def cleanNodeL : List Node → List Node
  | [] => []
  | n :: ns => cleanNode n ++ cleanNodeL ns

end

/-- `clean_html(''.join(str(n) for n in ns))` — the parse/serialise
round trip is modelled directly on the node list (see the header). -/
def cleanHtml (ns : List Node) : String := Node.renderL (cleanNodeL ns)

/-! ## The remaining selector forms -/

/-- `soup.select('.c')`. -/
def selectClass (d : Doc) (c : String) : List Node :=
  selectPredL (fun n => n.hasClass c) d

/-- `soup.select('#i')`. -/
def selectId (d : Doc) (i : String) : List Node :=
  selectPredL (fun n => n.attrVal "id" = some i) d

/-- `soup.find_all(t)` / `soup.select(t)` for a bare tag. -/
def selectTag (d : Doc) (t : String) : List Node :=
  selectPredL (fun n => n.isTag t) d

/-- `soup.find([t₁, t₂, ...])`: the first element in document order whose
tag is in the list. -/
def findFirstTags (d : Doc) (ts : List String) : Option Node :=
  (selectPredL (fun n => ts.any (fun t => n.isTag t)) d).head?

mutual

/-- Matches of `body p` strictly inside `n`; `inBody` says whether `n`
already has a `body` ancestor. -/
def bodyPNode (inBody : Bool) : Node → List Node
  | .text _ => []
  | .elem t _ cs => bodyPList (inBody || t == "body") cs

/-- `body p` matches contributed by a sibling list whose members have a
`body` ancestor iff `inBody`. -/
def bodyPList (inBody : Bool) : List Node → List Node
  | [] => []
  | n :: ns =>
    (if inBody && n.isTag "p" then [n] else []) ++ bodyPNode inBody n ++
      bodyPList inBody ns

end

/-- `soup.select('body p')`. -/
def selectBodyP (d : Doc) : List Node := bodyPList false d

mutual

/-- Matches of `.breadcrumb a:nth-of-type(2)` strictly inside `n`;
`inBc` says whether `n` already has a `.breadcrumb` ancestor. -/
def bcNode (inBc : Bool) : Node → List Node
  | .text _ => []
  | .elem t a cs => bcList (inBc || Node.hasClass (.elem t a cs) "breadcrumb") 0 cs

/-- Matches contributed by a sibling list (`aCount` = number of `a`
siblings already passed, for `nth-of-type`). -/
def bcList (inBc : Bool) (aCount : Nat) : List Node → List Node
  | [] => []
  | n :: ns =>
    (if inBc && n.isTag "a" && aCount == 1 then [n] else []) ++ bcNode inBc n ++
      bcList inBc (if n.isTag "a" then aCount + 1 else aCount) ns

end

/-- `soup.select_one('.breadcrumb a:nth-of-type(2)')`. -/
def breadcrumbAnchor (d : Doc) : Option Node := (bcList false 0 d).head?

/-! ## Field extraction inside `crawl_books` -/

/-- `dsoup.select('.intro, .detail_intro')` (src/app.py line 159). -/
def selectDescNodes (d : Doc) : List Node :=
  selectPredL (fun n => n.hasClass "intro" || n.hasClass "detail_intro") d

/-- The description branch (src/app.py lines 159–164). -/
def descriptionOf (d : Doc) : String :=
  match selectDescNodes d with
  | [] => "<p>Chưa có mô tả</p>"
  | ns => cleanHtml ns

/-- The category branch (src/app.py lines 166–167). -/
def categoryOf (d : Doc) : String :=
  match breadcrumbAnchor d with
  | some n => pyStrip n.getTextPlain
  | none => "Unknown"

/-- The title branch (src/app.py lines 156–157). -/
def titleOf (d : Doc) (bookId : String) : String :=
  match findFirstTags d ["h1", "h2"] with
  | some n => pyStrip n.getTextPlain
  | none => "Book " ++ bookId

/-- The ordered selector probes of the chapter-body tier 1
(src/app.py line 180). -/
def chapterSelectorResults (d : Doc) : List (List Node) :=
  [selectClass d "content", selectClass d "chapter", selectClass d "read-content",
   selectId d "content", selectClass d "article"]

/-- The `for sel in selectors: ... break` loop: the first selector's
matches, if any selector matched. -/
def firstHit (ls : List (List Node)) : Option (List Node) :=
  ls.find? (fun l => !l.isEmpty)

/-- The node list whose rendering is `ch_html` at the end of the
fallback chain (src/app.py lines 179–201); `none` iff `ch_html` stayed
falsy. Tier 3 synthesises `<p>`-wrapped lines; its later re-parse by
`clean_html` treats them as literal text (faithful whenever the page
text contains no markup of its own, which is what the extraction has
already produced). -/
def chapterBodyNodes (d : Doc) : Option (List Node) :=
  match firstHit (chapterSelectorResults d) with
  | some ns => some ns
  | none =>
    let ps := match selectBodyP d with
      | [] => selectTag d "p"
      | ps => ps
    if !ps.isEmpty then some ps
    else
      let texts := ((splitNlL (getTextSep d "\n").data).map pyStripL).filter
        (fun t => t ≠ [])
      if !texts.isEmpty then
        some ((texts.take 50).map (fun t => Node.elem "p" [] [Node.text ⟨t⟩]))
      else none

/-- `ch_content` (src/app.py lines 179–206). -/
def chapterContentOf (d : Doc) : String :=
  match chapterBodyNodes d with
  | some ns => cleanHtml ns
  | none => "<p>Chưa có nội dung</p>"

/-- The chapter-title branch (src/app.py lines 176–177). -/
def chapterTitleOf (d : Doc) (i : Nat) : String :=
  match findFirstTags d ["h1"] with
  | some n => pyStrip n.getTextPlain
  | none => "Chương " ++ toString i

/-! ## Link discovery (src/app.py lines 118–140) -/

/-- The crawl's fixed homepage. -/
def homepage : String := "https://qnote.qq.com/"

/-- Detail-page URL template. -/
def detailUrl (bookId : String) : String := "https://qnote.qq.com/detail/" ++ bookId

/-- Chapter-page URL template. -/
def chapterUrl (bookId : String) (i : Nat) : String :=
  "https://qnote.qq.com/read/" ++ bookId ++ "/" ++ toString i

/-- `httpx.URL(homepage).join(href)` for the hrefs met here: absolute
URLs kept, root-relative paths joined to the origin, other relative
paths merged against the base path `/`.  (Dot-segment resolution is not
modelled; the join never fails, so the `except: links.add(href)` branch
is unreachable in the model.) -/
def resolveHref (h : String) : String :=
  if strStartsWith h "http" then h
  else if strStartsWith h "/" then "https://qnote.qq.com" ++ h
  else "https://qnote.qq.com/" ++ h

/-- `re.search(r'/detail/(\d+)', href)`: the first position where
`/detail/` is followed by at least one digit; group 1 is the maximal
digit run. -/
def reSearchDetail : List Char → Option String
  | [] => none
  | c :: rest =>
    if prefixOfL "/detail/".data (c :: rest) then
      let ds := ((c :: rest).drop 8).takeWhile Char.isDigit
      if ds ≠ [] then some ⟨ds⟩ else reSearchDetail rest
    else reSearchDetail rest

/-- Link discovery (src/app.py lines 118–138): anchors with an `href`
containing `/detail/`, resolved, set-deduplicated (modelled in
insertion order), ids extracted by the regex, then deduplicated again by
`dict.fromkeys`. -/
def discoverIds (d : Doc) : List String :=
  let hrefs := (selectPredL (fun n => n.isTag "a" && (n.attrVal "href").isSome) d).map
    (fun n => (n.attrVal "href").getD "")
  let cand := hrefs.filter (fun h => strContains h "/detail/")
  let links := dedupKeepFirst (cand.map resolveHref)
  dedupKeepFirst (links.filterMap (fun h => reSearchDetail h.data))

/-! ## The crawl pipeline (src/app.py lines 111–212) -/

/-- `CrawlRequest` (src/app.py lines 64–66). -/
structure CrawlRequest where
  num_books : Nat
  num_chapters : Nat
deriving DecidableEq, Repr

/-- `Chapter` (src/app.py lines 49–52). -/
structure Chapter where
  title : String
  content : String
  source : String
deriving DecidableEq, Repr

/-- `BookResult` (src/app.py lines 55–61). -/
structure BookResult where
  id : String
  title : String
  description : String
  category : String
  source_book : String
  chapters : List Chapter
deriving DecidableEq, Repr

/-- `fastapi.HTTPException` as it is raised here. -/
structure HTTPExc where
  status : Nat
  detail : String
deriving DecidableEq, Repr

/-- Python truthiness of a `fetch_text` result: `if not body` fails the
walk for `None` and for the empty string alike. -/
def truthy : Option String → Option String
  | none => none
  | some s => if s = "" then none else some s

/-- One chapter record built from a truthy body (src/app.py
lines 175–208). -/
def chapterFromBody (parse : String → Doc) (bookId : String) (i : Nat)
    (body : String) : Chapter :=
  let c := parse body
  { title := chapterTitleOf c i
    content := chapterContentOf c
    source := chapterUrl bookId i }

/-- The chapter walk (src/app.py lines 169–208): `for i in
range(1, num_chapters + 1)`, stop at the first falsy body.  `n` is the
number of indices still to try, `i` the next index. -/
def walkChapters (fetch : String → Option String) (parse : String → Doc)
    (bookId : String) : Nat → Nat → List Chapter
  | 0, _ => []
  | n + 1, i =>
    match truthy (fetch (chapterUrl bookId i)) with
    | none => []
    | some body =>
      chapterFromBody parse bookId i body :: walkChapters fetch parse bookId n (i + 1)

/-- The per-identifier body of the loop (src/app.py lines 144–210):
`none` iff the detail fetch was falsy and the identifier skipped. -/
def resolveBook (fetch : String → Option String) (parse : String → Doc)
    (req : CrawlRequest) (bookId : String) : Option BookResult :=
  match truthy (fetch (detailUrl bookId)) with
  | none => none
  | some detailBody =>
    let firstCh := truthy (fetch (chapterUrl bookId 1))
    let sourceBook := if firstCh.isSome then chapterUrl bookId 1 else detailUrl bookId
    let dsoup := parse detailBody
    some { id := bookId
           title := titleOf dsoup bookId
           description := descriptionOf dsoup
           category := categoryOf dsoup
           source_book := sourceBook
           chapters := walkChapters fetch parse bookId req.num_chapters 1 }

/-- The loop over the sampled identifiers (src/app.py lines 144–210). -/
def processIds (fetch : String → Option String) (parse : String → Doc)
    (req : CrawlRequest) : List String → List BookResult
  | [] => []
  | bookId :: rest =>
    match resolveBook fetch parse req bookId with
    | none => processIds fetch parse req rest
    | some b => b :: processIds fetch parse req rest

/-- `crawl_books` (src/app.py lines 111–212), parametrised by the fetch,
parse and shuffle oracles. -/
def crawl_books (fetch : String → Option String) (parse : String → Doc)
    (shuffle : List String → List String) (req : CrawlRequest) :
    Except HTTPExc (List BookResult) :=
  match truthy (fetch homepage) with
  | none => .error ⟨502, "Failed to fetch QNote homepage"⟩
  | some body =>
    let ids := (shuffle (discoverIds (parse body))).take req.num_books
    .ok (processIds fetch parse req ids)

/-- The category-keyword list that sits (as bare identifier lines, dead
code) at the top of src/app.py; the spec's "fixed list of domain
category keywords". -/
def categoryKeywords : List String :=
  ["奇幻小说", "情色小说", "情色文学", "文学评论", "武侠小说", "热门小说",
   "穿越小说", "网站分类", "言情小说", "通俗小说", "都市小说", "黑暗小说",
   "青春纯爱", "站内全文搜索"]

/-! ## Helper lemmas -/

theorem mem_pyStripL {c : Char} {l : List Char} (h : c ∈ pyStripL l) : c ∈ l := by
  unfold pyStripL at h
  rw [List.mem_reverse] at h
  have h1 := (List.dropWhile_sublist (l := (l.dropWhile pyWhitespace).reverse)
    (p := pyWhitespace)).mem h
  rw [List.mem_reverse] at h1
  exact (List.dropWhile_sublist (l := l) (p := pyWhitespace)).mem h1

theorem mem_pyRstripL {c : Char} {l : List Char} (h : c ∈ pyRstripL l) : c ∈ l := by
  unfold pyRstripL at h
  rw [List.mem_reverse] at h
  have h1 := (List.dropWhile_sublist (l := l.reverse) (p := pyWhitespace)).mem h
  rwa [List.mem_reverse] at h1

theorem pyRstripL_length_le (l : List Char) : (pyRstripL l).length ≤ l.length := by
  unfold pyRstripL
  rw [List.length_reverse]
  calc (l.reverse.dropWhile pyWhitespace).length
      ≤ l.reverse.length := (List.dropWhile_sublist _).length_le
    _ = l.length := List.length_reverse l

theorem string_mk_ne_empty {l : List Char} (h : l ≠ []) : (⟨l⟩ : String) ≠ "" := by
  intro he
  exact h (congrArg String.data he)

/-! ## C3 — `sanitize_filename` safety -/

/-- The list-level pipeline of `sanitize_filename` before the
empty-result fallback (a proof-structuring restatement; see
`sanitize_filename_eq_stem`). -/
def sanitizeStem (l : List Char) (maxLen : Nat) : List Char :=
  let n2 := l.map (fun c => if c = '/' || c = '\\' then ' ' else c)
  let n3 := n2.filter (fun c => !winForbidden c)
  let n4 := pyStripL n3
  if n4.length > maxLen then pyRstripL (n4.take maxLen) else n4

theorem sanitize_filename_eq_stem (nfkd : String → String) (name : String)
    (maxLen : Nat) :
    sanitize_filename nfkd name maxLen =
      if sanitizeStem (nfkd name).data maxLen = [] then "untitled"
      else ⟨sanitizeStem (nfkd name).data maxLen⟩ := rfl

theorem sanitizeStem_chars (l : List Char) (maxLen : Nat) :
    ∀ c ∈ sanitizeStem l maxLen, c ≠ '/' ∧ c ≠ '\\' ∧ winForbidden c = false := by
  intro c hc
  simp only [sanitizeStem] at hc
  have hc4 : c ∈ pyStripL ((l.map (fun c => if c = '/' || c = '\\' then ' ' else c)).filter
      (fun c => !winForbidden c)) := by
    split at hc
    · exact (List.take_sublist _ _).mem (mem_pyRstripL hc)
    · exact hc
  have hc3 := mem_pyStripL hc4
  rw [List.mem_filter] at hc3
  obtain ⟨hc2, hforb⟩ := hc3
  rw [List.mem_map] at hc2
  obtain ⟨c0, _, hcc⟩ := hc2
  have hval : c = ' ' ∨ (c = c0 ∧ c0 ≠ '/' ∧ c0 ≠ '\\') := by
    by_cases h0 : c0 = '/' ∨ c0 = '\\'
    · left
      have hb : (c0 = '/' || c0 = '\\') = true := by
        rcases h0 with h | h <;> simp [h]
      rw [← hcc, hb]
      simp
    · right
      push_neg at h0
      have hb : (c0 = '/' || c0 = '\\') = false := by simp [h0.1, h0.2]
      rw [← hcc, hb]
      exact ⟨by simp, h0.1, h0.2⟩
  rcases hval with h | ⟨he, h1, h2⟩
  · subst h
    exact ⟨by decide, by decide, by simpa using hforb⟩
  · subst he
    exact ⟨h1, h2, by simpa using hforb⟩

theorem sanitizeStem_length (l : List Char) (maxLen : Nat) :
    (sanitizeStem l maxLen).length ≤ maxLen ∨
      (sanitizeStem l maxLen).length ≤
        (pyStripL ((l.map (fun c => if c = '/' || c = '\\' then ' ' else c)).filter
          (fun c => !winForbidden c))).length ∧
      (pyStripL ((l.map (fun c => if c = '/' || c = '\\' then ' ' else c)).filter
          (fun c => !winForbidden c))).length ≤ maxLen := by
  simp only [sanitizeStem]
  split
  · left
    calc (pyRstripL (List.take maxLen _)).length
        ≤ (List.take maxLen _).length := pyRstripL_length_le _
      _ ≤ maxLen := by simp
  · left
    omega

/-- C3 counterexample: the claim "`sanitize_filename name max_len` has
length ≤ `max_len`" fails at `name = ""`, `max_len = 0`: the
empty-result fallback returns the placeholder `"untitled"` of length 8.
(`nfkd := id` is faithful here: NFKD of the empty string is itself.) -/
theorem sanitize_filename_length_violation :
    sanitize_filename id "" 0 = "untitled" ∧
      ¬ (sanitize_filename id "" 0).length ≤ 0 := by
  constructor
  · decide
  · decide

/-- C3 (amended): for every Unicode normalisation, every name and every
`max_len`, `sanitize_filename` returns a string free of
`/ \\ < > : " | ? *` and non-empty, whose length is ≤ `max_len` *unless*
it is the fixed placeholder `"untitled"` (which the empty-result
fallback returns even when `max_len < 8`). -/
theorem sanitize_filename_safe (nfkd : String → String) (name : String)
    (maxLen : Nat) :
    (∀ c ∈ (sanitize_filename nfkd name maxLen).data,
        c ≠ '/' ∧ c ≠ '\\' ∧ winForbidden c = false) ∧
      sanitize_filename nfkd name maxLen ≠ "" ∧
      ((sanitize_filename nfkd name maxLen).length ≤ maxLen ∨
        sanitize_filename nfkd name maxLen = "untitled") := by
  rw [sanitize_filename_eq_stem]
  by_cases h : sanitizeStem (nfkd name).data maxLen = []
  · rw [if_pos h]
    refine ⟨by decide, by decide, Or.inr rfl⟩
  · rw [if_neg h]
    refine ⟨?_, string_mk_ne_empty h, ?_⟩
    · intro c hc
      exact sanitizeStem_chars _ _ c hc
    · rcases sanitizeStem_length (nfkd name).data maxLen with h1 | ⟨h2, h3⟩
      · left
        exact h1
      · left
        calc (String.mk (sanitizeStem (nfkd name).data maxLen)).length
            = (sanitizeStem (nfkd name).data maxLen).length := rfl
          _ ≤ _ := h2
          _ ≤ maxLen := h3

/-! ## C7 — only discovery failure crosses the boundary as an error -/

/-- `truthy o = some b` forces `o = some b`. -/
theorem truthy_eq_some {o : Option String} {b : String} (h : truthy o = some b) :
    o = some b := by
  cases o with
  | none => simp [truthy] at h
  | some s =>
    simp only [truthy] at h
    split at h
    · cases h
    · exact congrArg some (Option.some.inj h)

/-- C7: a falsy homepage fetch makes `crawl_books` raise the
`HTTPException(502, ...)` with no partial result, and it is the only
error: with a truthy homepage body the run always returns `ok`,
whatever the other fetches do. -/
theorem crawl_books_discovery_failure (fetch : String → Option String)
    (parse : String → Doc) (shuffle : List String → List String)
    (req : CrawlRequest) :
    (truthy (fetch homepage) = none →
      crawl_books fetch parse shuffle req =
        .error ⟨502, "Failed to fetch QNote homepage"⟩) ∧
    (∀ b, truthy (fetch homepage) = some b →
      ∃ rs, crawl_books fetch parse shuffle req = .ok rs) := by
  constructor
  · intro h
    unfold crawl_books
    rw [h]
  · intro b h
    unfold crawl_books
    rw [h]
    exact ⟨_, rfl⟩

/-- C7 witness: the all-failing fetch oracle yields exactly the 502
error. -/
theorem crawl_books_discovery_failure_witness :
    crawl_books (fun _ => none) (fun _ => []) (fun l => l) ⟨5, 10⟩ =
      .error ⟨502, "Failed to fetch QNote homepage"⟩ :=
  (crawl_books_discovery_failure (fun _ => none) (fun _ => []) (fun l => l)
    ⟨5, 10⟩).1 rfl

/-! ## C8 — failed detail fetch skips the identifier entirely -/

/-- C8: identifiers whose detail fetch is falsy contribute nothing to
the output — the result equals the run over the surviving identifiers
unchanged — and each surviving identifier emits exactly one record
carrying its id (so a failure is observable only as a shorter result). -/
theorem processIds_skips_failed (fetch : String → Option String)
    (parse : String → Doc) (req : CrawlRequest) (ids : List String) :
    processIds fetch parse req ids =
      processIds fetch parse req
        (ids.filter (fun i => (truthy (fetch (detailUrl i))).isSome)) ∧
    (processIds fetch parse req ids).map (fun b => b.id) =
      ids.filter (fun i => (truthy (fetch (detailUrl i))).isSome) := by
  induction ids with
  | nil => exact ⟨rfl, rfl⟩
  | cons i rest ih =>
    cases htr : truthy (fetch (detailUrl i)) with
    | none =>
      have hres : resolveBook fetch parse req i = none := by
        unfold resolveBook
        rw [htr]
      constructor
      · rw [List.filter_cons]
        simp only [htr, Option.isSome_none, if_neg (by decide : ¬ false = true)]
        simp only [processIds, hres]
        exact ih.1
      · rw [List.filter_cons]
        simp only [htr, Option.isSome_none, if_neg (by decide : ¬ false = true)]
        simp only [processIds, hres]
        exact ih.2
    | some body =>
      have hres : resolveBook fetch parse req i =
          some { id := i
                 title := titleOf (parse body) i
                 description := descriptionOf (parse body)
                 category := categoryOf (parse body)
                 source_book :=
                   if (truthy (fetch (chapterUrl i 1))).isSome then chapterUrl i 1
                   else detailUrl i
                 chapters := walkChapters fetch parse i req.num_chapters 1 } := by
        unfold resolveBook
        rw [htr]
      constructor
      · rw [List.filter_cons]
        simp only [htr, Option.isSome_some, if_true]
        simp only [processIds, hres]
        rw [← ih.1]
      · rw [List.filter_cons]
        simp only [htr, Option.isSome_some, if_true]
        simp only [processIds, hres, List.map_cons]
        rw [ih.2]

/-! ## C10 — an empty 200 body is a failure everywhere -/

/-- C10: a 200 response with empty body behaves at each of the three
call sites exactly like a failed fetch, because `fetch_text`'s result is
only ever tested for truthiness: an empty homepage body raises the 502,
an empty detail body skips the work, an empty chapter body ends the
walk at that index. -/
theorem empty_body_is_failure (fetch : String → Option String)
    (parse : String → Doc) (shuffle : List String → List String)
    (req : CrawlRequest) (bookId : String) (rest : List String) (n i : Nat) :
    (fetch homepage = some "" →
      crawl_books fetch parse shuffle req =
        .error ⟨502, "Failed to fetch QNote homepage"⟩) ∧
    (fetch (detailUrl bookId) = some "" →
      processIds fetch parse req (bookId :: rest) =
        processIds fetch parse req rest) ∧
    (fetch (chapterUrl bookId i) = some "" →
      walkChapters fetch parse bookId (n + 1) i = []) := by
  refine ⟨?_, ?_, ?_⟩
  · intro h
    unfold crawl_books
    rw [h]
    rfl
  · intro h
    have hres : resolveBook fetch parse req bookId = none := by
      unfold resolveBook
      rw [h]
      rfl
    simp only [processIds, hres]
  · intro h
    unfold walkChapters
    rw [h]
    rfl

/-- C10 witness: under the oracle answering every URL with an empty 200
body, the crawl 502s, a work is skipped, and a chapter walk stops. -/
theorem empty_body_is_failure_witness :
    (crawl_books (fun _ => some "") (fun _ => []) (fun l => l) ⟨5, 10⟩ =
      .error ⟨502, "Failed to fetch QNote homepage"⟩) ∧
    (processIds (fun _ => some "") (fun _ => []) ⟨5, 10⟩ ["7"] =
      processIds (fun _ => some "") (fun _ => []) ⟨5, 10⟩ []) ∧
    (walkChapters (fun _ => some "") (fun _ => []) "7" 10 1 = []) := by
  obtain ⟨h1, h2, h3⟩ := empty_body_is_failure (fun _ => some "") (fun _ => [])
    (fun l => l) ⟨5, 10⟩ "7" [] 9 1
  exact ⟨h1 rfl, h2 rfl, h3 rfl⟩

/-! ## C1 — chapters are the maximal successful prefix -/

/-- Characterisation of the chapter walk from any start index: it
produces the records of the maximal run of truthy fetches, in ascending
index order, and stops exactly at the first falsy fetch. -/
theorem walkChapters_spec (fetch : String → Option String) (parse : String → Doc)
    (bookId : String) :
    ∀ n i, ∃ m,
      walkChapters fetch parse bookId n i =
        (List.range' i m).map
          (fun j => chapterFromBody parse bookId j ((fetch (chapterUrl bookId j)).getD "")) ∧
      m ≤ n ∧
      (∀ j, i ≤ j → j < i + m → (truthy (fetch (chapterUrl bookId j))).isSome) ∧
      (m < n → truthy (fetch (chapterUrl bookId (i + m))) = none) := by
  intro n
  induction n with
  | zero =>
    intro i
    exact ⟨0, rfl, Nat.le_refl 0, fun j h1 h2 => by omega, fun h => by omega⟩
  | succ n ih =>
    intro i
    cases htr : truthy (fetch (chapterUrl bookId i)) with
    | none =>
      refine ⟨0, ?_, Nat.zero_le _, fun j h1 h2 => by omega, fun _ => by simpa using htr⟩
      unfold walkChapters
      rw [htr]
      rfl
    | some body =>
      obtain ⟨m, hw, hm, hall, hnext⟩ := ih (i + 1)
      have hbody : (fetch (chapterUrl bookId i)).getD "" = body := by
        rw [truthy_eq_some htr]
        rfl
      refine ⟨m + 1, ?_, by omega, ?_, ?_⟩
      · unfold walkChapters
        rw [htr, hw, List.range'_succ, List.map_cons, hbody]
      · intro j h1 h2
        rcases Nat.eq_or_lt_of_le h1 with he | hlt
        · rw [← he, htr]
          rfl
        · exact hall j hlt (by omega)
      · intro h
        have := hnext (by omega)
        rw [show i + (m + 1) = i + 1 + m by omega]
        exact this

/-- Every emitted record comes from a surviving identifier. -/
theorem mem_processIds {fetch : String → Option String} {parse : String → Doc}
    {req : CrawlRequest} {ids : List String} {b : BookResult}
    (h : b ∈ processIds fetch parse req ids) :
    ∃ i ∈ ids, resolveBook fetch parse req i = some b := by
  induction ids with
  | nil => cases h
  | cons i rest ih =>
    revert h
    unfold processIds
    cases hres : resolveBook fetch parse req i with
    | none =>
      intro h
      obtain ⟨j, hj, hr⟩ := ih h
      exact ⟨j, List.mem_cons_of_mem _ hj, hr⟩
    | some b0 =>
      intro h
      rcases List.mem_cons.1 h with he | hm
      · exact ⟨i, List.mem_cons_self i rest, by rw [hres, he]⟩
      · obtain ⟨j, hj, hr⟩ := ih hm
        exact ⟨j, List.mem_cons_of_mem _ hj, hr⟩

/-- A resolved record carries its identifier and the chapter walk's
output. -/
theorem resolveBook_fields {fetch : String → Option String} {parse : String → Doc}
    {req : CrawlRequest} {i : String} {b : BookResult}
    (h : resolveBook fetch parse req i = some b) :
    b.id = i ∧ b.chapters = walkChapters fetch parse i req.num_chapters 1 := by
  revert h
  unfold resolveBook
  cases truthy (fetch (detailUrl i)) with
  | none => intro h; cases h
  | some detailBody =>
    intro h
    have := Option.some.inj h
    rw [← this]
    exact ⟨rfl, rfl⟩

/-- Destructuring a successful crawl. -/
theorem crawl_books_ok {fetch : String → Option String} {parse : String → Doc}
    {shuffle : List String → List String} {req : CrawlRequest}
    {rs : List BookResult}
    (h : crawl_books fetch parse shuffle req = .ok rs) :
    ∃ body, truthy (fetch homepage) = some body ∧
      rs = processIds fetch parse req
        ((shuffle (discoverIds (parse body))).take req.num_books) := by
  revert h
  unfold crawl_books
  cases hh : truthy (fetch homepage) with
  | none => intro h; cases h
  | some body =>
    intro h
    exact ⟨body, rfl, (Except.ok.inj h).symm⟩

/-- C1: for every work emitted by `crawl_books` with
`num_chapters = N`, the chapter list is exactly the maximal successful
prefix: the records for indices `1..len` in ascending order (`len ≤ N`),
every fetch in that range truthy, and — when `len < N` — the fetch of
chapter `len + 1` falsy, so nothing at or beyond the first failure is
present. -/
theorem crawl_books_chapters_prefix (fetch : String → Option String)
    (parse : String → Doc) (shuffle : List String → List String)
    (req : CrawlRequest) (rs : List BookResult)
    (hok : crawl_books fetch parse shuffle req = .ok rs) :
    ∀ b ∈ rs,
      b.chapters.length ≤ req.num_chapters ∧
      b.chapters = (List.range' 1 b.chapters.length).map
        (fun j => chapterFromBody parse b.id j ((fetch (chapterUrl b.id j)).getD "")) ∧
      (∀ j, 1 ≤ j → j ≤ b.chapters.length →
        (truthy (fetch (chapterUrl b.id j))).isSome) ∧
      (b.chapters.length < req.num_chapters →
        truthy (fetch (chapterUrl b.id (b.chapters.length + 1))) = none) := by
  intro b hb
  obtain ⟨body, _, hrs⟩ := crawl_books_ok hok
  rw [hrs] at hb
  obtain ⟨i, _, hres⟩ := mem_processIds hb
  obtain ⟨hid, hch⟩ := resolveBook_fields hres
  obtain ⟨m, hw, hm, hall, hnext⟩ := walkChapters_spec fetch parse i req.num_chapters 1
  have hlen : b.chapters.length = m := by
    rw [hch, hw, List.length_map, List.length_range']
  subst hid
  refine ⟨by omega, ?_, ?_, ?_⟩
  · rw [hlen, hch, hw]
  · intro j h1 h2
    exact hall j h1 (by omega)
  · intro h
    rw [hlen, Nat.add_comm m 1]
    exact hnext (by omega)

/-! ## Concrete witness oracles

A tiny site: one homepage carrying the same detail target twice (once
relative, once absolute), one detail page with title, breadcrumb and
intro, one readable chapter. -/

/-- Witness homepage document. -/
def wDocHome : Doc :=
  [Node.elem "body" []
    [Node.elem "a" [("href", "/detail/123")] [Node.text "B1"],
     Node.elem "a" [("href", "https://qnote.qq.com/detail/123")] [Node.text "B1abs"]]]

/-- Witness detail-page document. -/
def wDocDetail : Doc :=
  [Node.elem "body" []
    [Node.elem "h1" [] [Node.text "武侠小说传"],
     Node.elem "div" [("class", "breadcrumb")]
       [Node.elem "a" [] [Node.text "Home"], Node.elem "a" [] [Node.text "言情"]],
     Node.elem "div" [("class", "intro")] [Node.text "desc"]]]

/-- Witness chapter-page document. -/
def wDocCh : Doc :=
  [Node.elem "div" [("class", "content")] [Node.elem "p" [] [Node.text "hello"]]]

/-- Witness fetch oracle: homepage, detail page of work 123 and its
chapter 1 resolve; everything else fails. -/
def wFetch : String → Option String := fun u =>
  if u = homepage then some "HOME"
  else if u = detailUrl "123" then some "DETAIL"
  else if u = chapterUrl "123" 1 then some "CH"
  else none

/-- Witness parse oracle. -/
def wParse : String → Doc := fun s =>
  if s = "HOME" then wDocHome
  else if s = "DETAIL" then wDocDetail
  else if s = "CH" then wDocCh
  else []

/-- The record the witness crawl emits. -/
def wBook : BookResult :=
  { id := "123"
    title := "武侠小说传"
    description := "<div class=\"intro\">desc</div>"
    category := "言情"
    source_book := "https://qnote.qq.com/read/123/1"
    chapters := [{ title := "Chương 1"
                   content := "<div class=\"content\"><p>hello</p></div>"
                   source := "https://qnote.qq.com/read/123/1" }] }

/-- The witness crawl resolves to exactly `wBook`. -/
theorem wCrawl_eval :
    crawl_books wFetch wParse (fun l => l) ⟨5, 10⟩ = .ok [wBook] := by rfl

/-- C1 witness: the prefix characterisation instantiated on the witness
crawl (one truthy chapter out of ten requested). -/
theorem crawl_books_chapters_prefix_witness :
    wBook.chapters.length ≤ 10 ∧
      wBook.chapters = (List.range' 1 wBook.chapters.length).map
        (fun j => chapterFromBody wParse wBook.id j
          ((wFetch (chapterUrl wBook.id j)).getD "")) ∧
      (∀ j, 1 ≤ j → j ≤ wBook.chapters.length →
        (truthy (wFetch (chapterUrl wBook.id j))).isSome) ∧
      (wBook.chapters.length < 10 →
        truthy (wFetch (chapterUrl wBook.id (wBook.chapters.length + 1))) = none) :=
  crawl_books_chapters_prefix wFetch wParse (fun l => l) ⟨5, 10⟩ [wBook]
    wCrawl_eval wBook (List.mem_singleton.mpr rfl)

/-! ## C6 — identifier uniqueness -/

theorem dedupKeepFirst_go_nodup (l : List String) :
    ∀ seen, (dedupKeepFirst.go seen l).Nodup ∧
      ∀ x ∈ dedupKeepFirst.go seen l, x ∉ seen := by
  induction l with
  | nil => exact fun seen => ⟨List.nodup_nil, fun x hx => absurd hx (List.not_mem_nil x)⟩
  | cons x xs ih =>
    intro seen
    unfold dedupKeepFirst.go
    by_cases h : x ∈ seen
    · rw [if_pos h]
      exact ih seen
    · rw [if_neg h]
      obtain ⟨hnd, hout⟩ := ih (x :: seen)
      refine ⟨List.nodup_cons.2 ⟨fun hx => ?_, hnd⟩, ?_⟩
      · exact hout x hx (List.mem_cons_self x seen)
      · intro y hy
        rcases List.mem_cons.1 hy with he | hm
        · rw [he]; exact h
        · exact fun hs => hout y hm (List.mem_cons_of_mem _ hs)

theorem dedupKeepFirst_nodup (l : List String) : (dedupKeepFirst l).Nodup :=
  (dedupKeepFirst_go_nodup l []).1

/-- Discovery never emits a duplicate identifier. -/
theorem discoverIds_nodup (d : Doc) : (discoverIds d).Nodup := by
  unfold discoverIds
  exact dedupKeepFirst_nodup _

/-- C6: whenever the shuffle permutes its input (as `random.shuffle`
does), the ids of the works in one crawl result are pairwise distinct —
even when the homepage carries the same target both absolutely and
relatively, since ids are deduplicated before sampling. -/
theorem crawl_books_ids_nodup (fetch : String → Option String)
    (parse : String → Doc) (shuffle : List String → List String)
    (req : CrawlRequest) (rs : List BookResult)
    (hperm : ∀ l, (shuffle l).Perm l)
    (hok : crawl_books fetch parse shuffle req = .ok rs) :
    (rs.map (fun b => b.id)).Nodup := by
  obtain ⟨body, _, hrs⟩ := crawl_books_ok hok
  rw [hrs, (processIds_skips_failed fetch parse req _).2]
  have h1 : (discoverIds (parse body)).Nodup := discoverIds_nodup _
  have h2 : (shuffle (discoverIds (parse body))).Nodup := ((hperm _).symm).nodup h1
  have h3 : ((shuffle (discoverIds (parse body))).take req.num_books).Nodup :=
    h2.sublist (List.take_sublist _ _)
  exact h3.sublist (List.filter_sublist _)

/-- C6 witness: the witness homepage lists `/detail/123` both relatively
and absolutely, yet the crawl's ids are distinct. -/
theorem crawl_books_ids_nodup_witness :
    (([wBook] : List BookResult).map (fun b => b.id)).Nodup :=
  crawl_books_ids_nodup wFetch wParse (fun l => l) ⟨5, 10⟩ [wBook]
    (fun l => List.Perm.refl l) wCrawl_eval

/-! ## C2 / C4 — the extraction chain -/

/-- The cleaned rendering of a single node: its contribution to
`clean_html(''.join(str(n) for n in nodes))`. -/
def cleanRender (n : Node) : String := Node.renderL (cleanNode n)

/-- Right-fold concatenation of a list of strings. -/
def concatStr (l : List String) : String := l.foldr (fun a b => a ++ b) ""

/-- A matched node whose cleaned rendering is guaranteed non-empty:
neither an image (removed entirely) nor an anchor or text with empty
text. -/
def nodeSurvivesClean (n : Node) : Bool :=
  match n with
  | .text s => s != ""
  | .elem t _ cs =>
    if t = "img" then false
    else if t = "a" then getTextPlainL cs != ""
    else true

mutual

theorem mem_selectPred_sat (p : Node → Bool) :
    ∀ (n : Node) n', n' ∈ selectPred p n → p n' = true
  | .text _, n', h => by simp [selectPred] at h
  | .elem t a cs, n', h => by
    rw [selectPred] at h
    rcases List.mem_append.1 h with h1 | h2
    · by_cases hp : p (.elem t a cs) = true
      · rw [if_pos hp] at h1
        rw [List.mem_singleton.1 h1]
        exact hp
      · rw [if_neg hp] at h1
        cases h1
    · exact mem_selectPredL_sat p cs n' h2

theorem mem_selectPredL_sat (p : Node → Bool) :
    ∀ (l : List Node) n', n' ∈ selectPredL p l → p n' = true
  | [], n', h => by simp [selectPredL] at h
  | n :: ns, n', h => by
    rw [selectPredL] at h
    rcases List.mem_append.1 h with h1 | h2
    · exact mem_selectPred_sat p n n' h1
    · exact mem_selectPredL_sat p ns n' h2

end

mutual

theorem mem_bodyPNode_isP :
    ∀ (b : Bool) (n : Node) n', n' ∈ bodyPNode b n → n'.isTag "p" = true
  | _, .text _, n', h => by simp [bodyPNode] at h
  | b, .elem t a cs, n', h => by
    rw [bodyPNode] at h
    exact mem_bodyPList_isP _ cs n' h

theorem mem_bodyPList_isP :
    ∀ (b : Bool) (l : List Node) n', n' ∈ bodyPList b l → n'.isTag "p" = true
  | _, [], n', h => by simp [bodyPList] at h
  | b, n :: ns, n', h => by
    rw [bodyPList] at h
    rcases List.mem_append.1 h with h1 | h2
    · rcases List.mem_append.1 h1 with h3 | h4
      · by_cases hc : (b && n.isTag "p") = true
        · rw [if_pos hc] at h3
          rw [List.mem_singleton.1 h3]
          exact ((Bool.and_eq_true _ _ ▸ hc : b = true ∧ n.isTag "p" = true)).2
        · rw [if_neg hc] at h3
          cases h3
      · exact mem_bodyPNode_isP b n n' h4
    · exact mem_bodyPList_isP _ ns n' h2

end

/-- An element whose tag is neither `img` nor `a` survives cleaning. -/
theorem nodeSurvivesClean_of_tag {n : Node} {t : String} (h : n.isTag t = true)
    (h1 : t ≠ "img") (h2 : t ≠ "a") : nodeSurvivesClean n = true := by
  cases n with
  | text s => simp [Node.isTag] at h
  | elem tag a cs =>
    have : tag = t := by simpa [Node.isTag] using h
    subst this
    simp [nodeSurvivesClean, h1, h2]

theorem escapeChar_ne_nil (c : Char) : escapeChar c ≠ [] := by
  unfold escapeChar
  split
  · simp
  · split
    · simp
    · split <;> simp

theorem escapeTextL_ne_nil {l : List Char} (h : l ≠ []) : escapeTextL l ≠ [] := by
  cases l with
  | nil => exact absurd rfl h
  | cons c rest =>
    unfold escapeTextL
    rw [List.map_cons, List.flatten]
    intro he
    exact escapeChar_ne_nil c (List.append_eq_nil.1 he).1

theorem append_ne_empty_left {a b : String} (h : a ≠ "") : a ++ b ≠ "" := by
  intro he
  apply h
  have : (a ++ b).data = a.data ++ b.data := String.data_append a b
  have hd : a.data ++ b.data = [] := by
    rw [← this, he]
  have : a.data = [] := (List.append_eq_nil.1 hd).1
  exact congrArg String.mk this

/-- Rendering a non-empty text node gives a non-empty string. -/
theorem render_text_ne_empty {s : String} (h : s ≠ "") :
    Node.render (.text s) ≠ "" := by
  rw [Node.render]
  intro he
  apply escapeTextL_ne_nil (l := s.data)
  · intro hd
    exact h (congrArg String.mk (by simpa using hd))
  · exact congrArg String.data he

/-- Rendering an element gives a non-empty string. -/
theorem render_elem_ne_empty (t : String) (a : List (String × String))
    (cs : List Node) : Node.render (.elem t a cs) ≠ "" := by
  rw [Node.render]
  split
  · intro he
    have := congrArg String.data he
    rw [String.data_append] at this
    simp at this
  · intro he
    have := congrArg String.data he
    rw [String.data_append] at this
    simp at this

theorem append_ne_empty_right {a b : String} (h : b ≠ "") : a ++ b ≠ "" := by
  intro he
  apply h
  have hd : a.data ++ b.data = [] := by
    rw [← String.data_append a b, he]
  exact congrArg String.mk (List.append_eq_nil.1 hd).2

/-- A surviving node contributes a non-empty cleaned rendering. -/
theorem cleanRender_ne_empty {n : Node} (h : nodeSurvivesClean n = true) :
    cleanRender n ≠ "" := by
  cases n with
  | text s =>
    have hs : s ≠ "" := by simpa [nodeSurvivesClean] using h
    show Node.renderL (cleanNode (.text s)) ≠ ""
    rw [cleanNode, Node.renderL, Node.renderL]
    exact append_ne_empty_left (render_text_ne_empty hs)
  | elem t a cs =>
    by_cases h1 : t = "img"
    · rw [nodeSurvivesClean] at h
      rw [if_pos h1] at h
      cases h
    · by_cases h2 : t = "a"
      · have hs : getTextPlainL cs ≠ "" := by
          rw [nodeSurvivesClean, if_neg h1, if_pos h2] at h
          simpa using h
        show Node.renderL (cleanNode (.elem t a cs)) ≠ ""
        rw [cleanNode, if_neg h1, if_pos h2, Node.renderL, Node.renderL]
        exact append_ne_empty_left (render_text_ne_empty hs)
      · show Node.renderL (cleanNode (.elem t a cs)) ≠ ""
        rw [cleanNode, if_neg h1, if_neg h2, Node.renderL, Node.renderL]
        exact append_ne_empty_left (render_elem_ne_empty _ _ _)

theorem renderL_append (l1 l2 : List Node) :
    Node.renderL (l1 ++ l2) = Node.renderL l1 ++ Node.renderL l2 := by
  induction l1 with
  | nil =>
    rw [List.nil_append, Node.renderL]
    exact (String.empty_append _).symm
  | cons n ns ih =>
    rw [List.cons_append, Node.renderL, Node.renderL, ih, String.append_assoc]

/-- `clean_html` of the match list splits as head contribution plus
rest. -/
theorem cleanHtml_cons (n : Node) (ns : List Node) :
    cleanHtml (n :: ns) = cleanRender n ++ cleanHtml ns := by
  unfold cleanHtml cleanRender
  rw [cleanNodeL, renderL_append]

/-- `clean_html(''.join(str(n) for n in ns))` is the concatenation, in
document order and with every duplicate kept, of each matched node's
cleaned rendering. -/
theorem cleanHtml_eq_concat (ns : List Node) :
    cleanHtml ns = concatStr (ns.map cleanRender) := by
  induction ns with
  | nil => rfl
  | cons n ns ih =>
    rw [cleanHtml_cons, ih]
    rfl

theorem cleanHtml_ne_empty {ns : List Node}
    (h : ∃ n ∈ ns, nodeSurvivesClean n = true) : cleanHtml ns ≠ "" := by
  induction ns with
  | nil => obtain ⟨n, hn, _⟩ := h; cases hn
  | cons m ms ih =>
    obtain ⟨n, hn, hs⟩ := h
    rw [cleanHtml_cons]
    rcases List.mem_cons.1 hn with he | hm
    · rw [he] at hs
      exact append_ne_empty_left (cleanRender_ne_empty hs)
    · exact append_ne_empty_right (ih ⟨n, hm, hs⟩)

theorem cleanHtml_ne_empty_of_all_p {ns : List Node} (hne : ns ≠ [])
    (hp : ∀ n ∈ ns, n.isTag "p" = true) : cleanHtml ns ≠ "" := by
  obtain ⟨n, hn⟩ := List.exists_mem_of_ne_nil ns hne
  exact cleanHtml_ne_empty
    ⟨n, hn, nodeSurvivesClean_of_tag (hp n hn) (by decide) (by decide)⟩

/-- A document whose only `.content` match is an image. -/
def imgDoc : Doc := [Node.elem "img" [("class", "content")] []]

/-- A detail page whose only `.intro` match is an image. -/
def imgIntroDoc : Doc := [Node.elem "img" [("class", "intro")] []]

/-- C2 counterexample: extraction is *not* never-empty.  When the
winning selector tier matches only an image, `clean_html` removes it and
the chapter content — and likewise the description — is the empty
string (src/app.py lines 180–206 and 159–164). -/
theorem extraction_empty_counterexample :
    chapterContentOf imgDoc = "" ∧
      (chapterFromBody (fun _ => imgDoc) "9" 1 "body").content = "" ∧
      descriptionOf imgIntroDoc = "" := by
  refine ⟨rfl, rfl, rfl⟩

/-- C2 (amended): extraction is total (these are Lean functions, so no
exception can occur) and the produced string is non-empty in every case
except one: when a selector tier wins and *every* node it matched is an
image or an empty-text anchor/text (then cleaning erases everything).
With at least one surviving matched node — and always in the paragraph,
text-line and placeholder fallbacks — the result is non-empty. -/
theorem extraction_nonempty (d : Doc)
    (hsel : ∀ ns, firstHit (chapterSelectorResults d) = some ns →
      ∃ n ∈ ns, nodeSurvivesClean n = true)
    (hdesc : selectDescNodes d ≠ [] →
      ∃ n ∈ selectDescNodes d, nodeSurvivesClean n = true) :
    chapterContentOf d ≠ "" ∧ descriptionOf d ≠ "" := by
  constructor
  · unfold chapterContentOf chapterBodyNodes
    cases hfh : firstHit (chapterSelectorResults d) with
    | some ns =>
      exact cleanHtml_ne_empty (hsel ns hfh)
    | none =>
      cases hb : selectBodyP d with
      | cons n ns =>
        show cleanHtml (n :: ns) ≠ ""
        refine cleanHtml_ne_empty_of_all_p (by simp) ?_
        intro n' hn'
        refine mem_bodyPList_isP false d n' ?_
        rw [show bodyPList false d = n :: ns from hb]
        exact hn'
      | nil =>
        cases ht : selectTag d "p" with
        | cons n ns =>
          show cleanHtml (n :: ns) ≠ ""
          refine cleanHtml_ne_empty_of_all_p (by simp) ?_
          intro n' hn'
          refine mem_selectPredL_sat (fun m => m.isTag "p") d n' ?_
          rw [show selectPredL (fun m => m.isTag "p") d = n :: ns from ht]
          exact hn'
        | nil =>
          cases htx : ((splitNlL (getTextSep d "\n").data).map pyStripL).filter
              (fun t => t ≠ []) with
          | nil =>
            show ("<p>Chưa có nội dung</p>" : String) ≠ ""
            decide
          | cons t ts =>
            show cleanHtml (((t :: ts).take 50).map
              (fun t => Node.elem "p" [] [Node.text ⟨t⟩])) ≠ ""
            refine cleanHtml_ne_empty_of_all_p ?_ ?_
            · simp
            · intro n' hn'
              obtain ⟨t', _, he⟩ := List.mem_map.1 hn'
              rw [← he]
              rfl
  · unfold descriptionOf
    cases hsd : selectDescNodes d with
    | nil =>
      show ("<p>Chưa có mô tả</p>" : String) ≠ ""
      decide
    | cons n ns =>
      show cleanHtml (n :: ns) ≠ ""
      obtain ⟨n', hn', hs⟩ := hdesc (by rw [hsd]; simp)
      rw [hsd] at hn'
      exact cleanHtml_ne_empty ⟨n', hn', hs⟩

/-- C2 witness: on the witness chapter page the winning `.content`
match is a real `div`, and both extracted strings are non-empty. -/
theorem extraction_nonempty_witness :
    chapterContentOf wDocCh ≠ "" ∧ descriptionOf wDocCh ≠ "" := by
  refine extraction_nonempty wDocCh ?_ ?_
  · intro ns h
    have h0 : firstHit (chapterSelectorResults wDocCh) =
        some [Node.elem "div" [("class", "content")]
          [Node.elem "p" [] [Node.text "hello"]]] := rfl
    rw [h0] at h
    rw [← Option.some.inj h]
    decide
  · intro h
    exact absurd rfl h

/-! ## C4 — winning-tier concatenation -/

/-- First-key-kept deduplication of nodes under a key function (used
only to *state* the spec's claimed behaviour). -/
def dedupByKey (key : Node → String) : List Node → List Node :=
  go []
where
  go : List String → List Node → List Node
  | _, [] => []
  | seen, n :: ns =>
    if key n ∈ seen then go seen ns else n :: go (key n :: seen) ns

/-- Modelled from the spec (§4.2): "content from all matches of the
winning tier is concatenated in document order, with exact-duplicate
text blocks suppressed (compare post-normalization)" — matched nodes
with identical `html_to_text`-normalised content contribute once. -/
def spec_winning_tier_concat (ns : List Node) : String :=
  concatStr ((dedupByKey (fun n => html_to_text (cleanRender n)) ns).map cleanRender)

/-- A chapter page with two `.content` blocks of identical text. -/
def dupDoc : Doc :=
  [Node.elem "div" [("class", "content")] [Node.elem "p" [] [Node.text "x"]],
   Node.elem "div" [("class", "content")] [Node.elem "p" [] [Node.text "x"]]]

/-- C4 counterexample: the source never suppresses duplicates —
`''.join(str(n) for n in nodes)` keeps both identical `.content`
blocks, while the spec's dedup rule would keep one. -/
theorem winning_tier_concat_counterexample :
    chapterContentOf dupDoc =
      "<div class=\"content\"><p>x</p></div><div class=\"content\"><p>x</p></div>" ∧
      spec_winning_tier_concat (selectClass dupDoc "content") =
        "<div class=\"content\"><p>x</p></div>" ∧
      chapterContentOf dupDoc ≠
        spec_winning_tier_concat (selectClass dupDoc "content") := by
  refine ⟨rfl, by decide, by decide⟩

/-- C4 (amended): when a tier wins — the first chapter-body selector
with a match, or the description selector pair — the extracted content
is the concatenation, in document order, of the cleaned rendering of
*all* matched nodes, with duplicates kept (no suppression of identical
blocks happens anywhere). -/
theorem winning_tier_concat (d : Doc) :
    (∀ ns, firstHit (chapterSelectorResults d) = some ns →
      chapterContentOf d = concatStr (ns.map cleanRender)) ∧
    (selectDescNodes d ≠ [] →
      descriptionOf d = concatStr ((selectDescNodes d).map cleanRender)) := by
  constructor
  · intro ns hfh
    unfold chapterContentOf chapterBodyNodes
    rw [hfh]
    exact cleanHtml_eq_concat ns
  · intro hd
    unfold descriptionOf
    cases hsd : selectDescNodes d with
    | nil => exact absurd hsd hd
    | cons n ns =>
      show cleanHtml (n :: ns) = _
      exact cleanHtml_eq_concat _

/-- C4 witness: the duplicated-block page instantiates the amended
concatenation equation. -/
theorem winning_tier_concat_witness :
    chapterContentOf dupDoc =
      concatStr ((selectClass dupDoc "content").map cleanRender) :=
  (winning_tier_concat dupDoc).1 (selectClass dupDoc "content") rfl

/-! ## C5 — category is breadcrumb-only -/

/-- A resolved record's category is computed from the detail page alone
by the breadcrumb rule. -/
theorem resolveBook_category {fetch : String → Option String}
    {parse : String → Doc} {req : CrawlRequest} {i : String} {b : BookResult}
    (h : resolveBook fetch parse req i = some b) :
    ∃ body, truthy (fetch (detailUrl i)) = some body ∧
      b.category = categoryOf (parse body) ∧
      b.title = titleOf (parse body) i := by
  revert h
  unfold resolveBook
  cases ht : truthy (fetch (detailUrl i)) with
  | none => intro h; cases h
  | some detailBody =>
    intro h
    refine ⟨detailBody, rfl, ?_, ?_⟩ <;> rw [← Option.some.inj h]

/-- C5 counterexample: the fixed keyword `"武侠小说"` occurs in the
resolved title of the witness work, yet the record's category carries
only the breadcrumb label `"言情"` — no keyword is ever appended (the
keyword list sits at the top of src/app.py as dead code and is never
consulted by `crawl_books`). -/
theorem category_ignores_keywords_counterexample :
    resolveBook wFetch wParse ⟨5, 10⟩ "123" = some wBook ∧
      "武侠小说" ∈ categoryKeywords ∧
      strContains wBook.title "武侠小说" = true ∧
      wBook.category = "言情" ∧
      strContains wBook.category "武侠小说" = false := by
  refine ⟨rfl, by decide, by decide, rfl, by decide⟩

/-- C5 (amended): the category attached to every emitted work is
exactly the breadcrumb-derived label — the text of the second anchor in
the `.breadcrumb` container, else `"Unknown"` — computed from the
work's own detail page; no title-keyword matches are appended. -/
theorem crawl_books_category_breadcrumb (fetch : String → Option String)
    (parse : String → Doc) (shuffle : List String → List String)
    (req : CrawlRequest) (rs : List BookResult)
    (hok : crawl_books fetch parse shuffle req = .ok rs) :
    ∀ b ∈ rs, ∃ body, truthy (fetch (detailUrl b.id)) = some body ∧
      b.category = (match breadcrumbAnchor (parse body) with
        | some n => pyStrip n.getTextPlain
        | none => "Unknown") := by
  intro b hb
  obtain ⟨body0, _, hrs⟩ := crawl_books_ok hok
  rw [hrs] at hb
  obtain ⟨i, _, hres⟩ := mem_processIds hb
  obtain ⟨hid, _⟩ := resolveBook_fields hres
  obtain ⟨body, ht, hcat, _⟩ := resolveBook_category hres
  subst hid
  exact ⟨body, ht, hcat⟩

/-- C5 witness: on the witness crawl the emitted category is the
breadcrumb's second anchor text. -/
theorem crawl_books_category_breadcrumb_witness :
    ∃ body, truthy (wFetch (detailUrl wBook.id)) = some body ∧
      wBook.category = (match breadcrumbAnchor (wParse body) with
        | some n => pyStrip n.getTextPlain
        | none => "Unknown") :=
  crawl_books_category_breadcrumb wFetch wParse (fun l => l) ⟨5, 10⟩ [wBook]
    wCrawl_eval wBook (List.mem_singleton.mpr rfl)

/-! ## C9 — `html_to_text` idempotence -/

theorem consChunk_cons (c : Char) (l : List Char) (ls : List (List Char)) :
    consChunk c (l :: ls) = (c :: l) :: ls := rfl

/-- A `<`-free string is one single data chunk. -/
theorem dataChunksF_no_lt {l : List Char} (h : '<' ∉ l) :
    ∀ fuel, l.length ≤ fuel → dataChunksF fuel l = [l] := by
  induction l with
  | nil =>
    intro fuel _
    cases fuel <;> rfl
  | cons c rest ih =>
    intro fuel hf
    have hc : c ≠ '<' := fun he => h (he ▸ List.mem_cons_self c rest)
    cases fuel with
    | zero => simp at hf
    | succ f =>
      rw [dataChunksF]
      rw [if_neg (by simp [hc]), if_neg hc]
      rw [ih (fun hm => h (List.mem_cons_of_mem c hm)) f (by simpa using hf)]
      rfl

theorem dataChunks_no_lt {l : List Char} (h : '<' ∉ l) : dataChunks l = [l] :=
  dataChunksF_no_lt h l.length (Nat.le_refl _)

/-- An `&`-free string decodes to itself. -/
theorem decodeEntF_no_amp :
    ∀ fuel (l : List Char), '&' ∉ l → l.length ≤ fuel → decodeEntF fuel l = l := by
  intro fuel
  induction fuel with
  | zero =>
    intro l _ hf
    cases l with
    | nil => rfl
    | cons c rest => simp at hf
  | succ f ih =>
    intro l h hf
    cases l with
    | nil => rfl
    | cons c rest =>
      have hc : c ≠ '&' := fun he => h (he ▸ List.mem_cons_self c rest)
      rw [decodeEntF, if_neg hc,
        ih rest (fun hm => h (List.mem_cons_of_mem c hm)) (by simpa using hf)]

theorem decodeEntitiesL_no_amp {l : List Char} (h : '&' ∉ l) :
    decodeEntitiesL l = l :=
  decodeEntF_no_amp l.length l h (Nat.le_refl _)

theorem intercalate_single (y : List Char) : List.intercalate ['\n'] [y] = y := by
  simp [List.intercalate]

/-- The head of a `dropWhile` result falsifies the predicate. -/
theorem dropWhile_head_false (p : Char → Bool) :
    ∀ (l : List Char) c cs, List.dropWhile p l = c :: cs → p c = false := by
  intro l
  induction l with
  | nil => intro c cs h; cases h
  | cons a as ih =>
    intro c cs h
    rw [List.dropWhile_cons] at h
    by_cases hp : p a
    · rw [if_pos hp] at h
      exact ih c cs h
    · rw [if_neg hp] at h
      cases h
      simpa using hp

theorem dropWhile_rdrop_dropWhile (p : Char → Bool) (l : List Char) :
    List.dropWhile p (List.rdropWhile p (List.dropWhile p l)) =
      List.rdropWhile p (List.dropWhile p l) := by
  cases hX : List.dropWhile p l with
  | nil => simp
  | cons c cs =>
    have hpc : p c = false := dropWhile_head_false p l c cs hX
    cases hR : List.rdropWhile p (c :: cs) with
    | nil => simp
    | cons d ds =>
      have hpre := List.rdropWhile_prefix p (c :: cs)
      rw [hR] at hpre
      obtain ⟨t, ht⟩ := hpre
      have hd : d = c := by
        rw [List.cons_append] at ht
        exact (List.cons.inj ht).1
      rw [List.dropWhile_cons, hd, hpc]
      simp

theorem pyStripL_eq_rdrop (l : List Char) :
    pyStripL l = List.rdropWhile pyWhitespace (l.dropWhile pyWhitespace) := rfl

theorem pyStripL_idem (l : List Char) : pyStripL (pyStripL l) = pyStripL l := by
  rw [pyStripL_eq_rdrop, pyStripL_eq_rdrop, dropWhile_rdrop_dropWhile,
    List.rdropWhile_idempotent]

theorem splitlinesF_nil (fuel : Nat) : splitlinesF fuel [] = [] := by
  cases fuel <;> rfl

theorem splitlinesF_nl (fuel : Nat) (rest : List Char) :
    splitlinesF (fuel + 1) ('\n' :: rest) = [] :: splitlinesF fuel rest := by
  rw [splitlinesF]
  rw [if_pos rfl]

theorem splitlinesF_cr (fuel : Nat) (rest : List Char) :
    splitlinesF (fuel + 1) ('\x0d' :: rest) =
      [] :: splitlinesF fuel (dropOneNl rest) := by
  rw [splitlinesF]
  rw [if_neg (by decide), if_pos rfl]

theorem splitlinesF_other {c : Char} (h1 : c ≠ '\n') (h2 : c ≠ '\x0d')
    (fuel : Nat) (rest : List Char) :
    splitlinesF (fuel + 1) (c :: rest) =
      match splitlinesF fuel rest with
      | [] => [[c]]
      | l :: ls => (c :: l) :: ls := by
  rw [splitlinesF, if_neg h1, if_neg h2]

theorem dropOneNl_length_le (r : List Char) : (dropOneNl r).length ≤ r.length := by
  cases r with
  | nil => exact Nat.le_refl _
  | cons c rr =>
    rw [dropOneNl]
    split
    · exact Nat.le_succ _
    · exact Nat.le_refl _

/-- Every line produced by `splitlines` is free of line-break
characters. -/
theorem splitlinesF_no_break :
    ∀ fuel (l : List Char), l.length ≤ fuel →
      ∀ ln ∈ splitlinesF fuel l, ∀ c ∈ ln, c ≠ '\n' ∧ c ≠ '\x0d' := by
  intro fuel
  induction fuel with
  | zero =>
    intro l hf ln hln
    cases l with
    | nil => rw [splitlinesF_nil] at hln; cases hln
    | cons a rest => simp at hf
  | succ f ih =>
    intro l hf ln hln c hc
    cases l with
    | nil => rw [splitlinesF_nil] at hln; cases hln
    | cons a rest =>
      by_cases ha1 : a = '\n'
      · subst ha1
        rw [splitlinesF_nl] at hln
        rcases List.mem_cons.1 hln with he | hm
        · subst he; cases hc
        · exact ih rest (by simpa using hf) ln hm c hc
      · by_cases ha2 : a = '\x0d'
        · subst ha2
          rw [splitlinesF_cr] at hln
          rcases List.mem_cons.1 hln with he | hm
          · subst he; cases hc
          · exact ih (dropOneNl rest)
              (Nat.le_trans (dropOneNl_length_le rest) (by simpa using hf)) ln hm c hc
        · rw [splitlinesF_other ha1 ha2] at hln
          cases hsp : splitlinesF f rest with
          | nil =>
            rw [hsp] at hln
            have hl : ln = [a] := List.mem_singleton.1 hln
            subst hl
            have : c = a := List.mem_singleton.1 hc
            subst this
            exact ⟨ha1, ha2⟩
          | cons m ms =>
            rw [hsp] at hln
            have hrec : ∀ ln' ∈ splitlinesF f rest, ∀ c' ∈ ln', c' ≠ '\n' ∧ c' ≠ '\x0d' :=
              ih rest (by simpa using hf)
            rcases List.mem_cons.1 hln with he | hm
            · subst he
              rcases List.mem_cons.1 hc with he2 | hm2
              · subst he2; exact ⟨ha1, ha2⟩
              · exact hrec m (hsp ▸ List.mem_cons_self m ms) c hm2
            · exact hrec ln (hsp ▸ List.mem_cons_of_mem m hm) c hc

/-- A break-free line followed by `\n` splits off whole. -/
theorem splitlinesF_append_nl :
    ∀ (ln : List Char), (∀ c ∈ ln, c ≠ '\n' ∧ c ≠ '\x0d') →
      ∀ (k : Nat) (rest : List Char),
        splitlinesF (ln.length + k + 1) (ln ++ '\n' :: rest) =
          ln :: splitlinesF k rest := by
  intro ln
  induction ln with
  | nil =>
    intro _ k rest
    simpa using splitlinesF_nl k rest
  | cons c cs ih =>
    intro hnb k rest
    have hc := hnb c (List.mem_cons_self c cs)
    have hcs : ∀ c' ∈ cs, c' ≠ '\n' ∧ c' ≠ '\x0d' :=
      fun c' hm => hnb c' (List.mem_cons_of_mem c hm)
    have hlen : (c :: cs).length + k + 1 = cs.length + k + 1 + 1 := by
      simp [List.length_cons]
      omega
    rw [hlen, List.cons_append, splitlinesF_other hc.1 hc.2, ih hcs k rest]

/-- A non-empty break-free string is a single line. -/
theorem splitlinesF_single :
    ∀ (ln : List Char), ln ≠ [] → (∀ c ∈ ln, c ≠ '\n' ∧ c ≠ '\x0d') →
      ∀ k : Nat, splitlinesF (ln.length + k) ln = [ln] := by
  intro ln
  induction ln with
  | nil => intro h; exact absurd rfl h
  | cons c cs ih =>
    intro _ hnb k
    have hc := hnb c (List.mem_cons_self c cs)
    have hlen : (c :: cs).length + k = cs.length + k + 1 := by
      simp [List.length_cons]
      omega
    rw [hlen, splitlinesF_other hc.1 hc.2]
    by_cases hcs : cs = []
    · subst hcs
      rw [splitlinesF_nil]
    · rw [ih hcs (fun c' hm => hnb c' (List.mem_cons_of_mem c hm)) k]

/-- The lines of `'\n\n'.join(ls)`, for non-empty break-free `ls`
entries: the entries interleaved with the empty lines the double
separator creates. -/
def interleaveBlank : List (List Char) → List (List Char)
  | [] => []
  | [l] => [l]
  | l :: l' :: ls => l :: [] :: interleaveBlank (l' :: ls)

theorem intercalateL_nil (sep : List Char) :
    List.intercalate sep ([] : List (List Char)) = [] := by
  simp [List.intercalate]

theorem intercalateL_singleton (sep l : List Char) :
    List.intercalate sep [l] = l := by
  simp [List.intercalate]

theorem intercalateL_cons_cons (sep l l' : List Char) (ls : List (List Char)) :
    List.intercalate sep (l :: l' :: ls) =
      l ++ sep ++ List.intercalate sep (l' :: ls) := by
  simp [List.intercalate, List.intersperse_cons_cons, List.append_assoc]

theorem splitlinesF_intercalate :
    ∀ (ls : List (List Char)),
      (∀ l ∈ ls, l ≠ [] ∧ ∀ c ∈ l, c ≠ '\n' ∧ c ≠ '\x0d') →
      ∀ k : Nat,
        splitlinesF ((List.intercalate ['\n', '\n'] ls).length + k)
          (List.intercalate ['\n', '\n'] ls) = interleaveBlank ls
  | [], _, k => by
    rw [intercalateL_nil, splitlinesF_nil]
    rfl
  | [l], h, k => by
    rw [intercalateL_singleton]
    have hl := h l (List.mem_singleton.2 rfl)
    exact splitlinesF_single l hl.1 hl.2 k
  | l :: l' :: ls, h, k => by
    rw [intercalateL_cons_cons]
    have hl := h l (List.mem_cons_self _ _)
    have hrest : ∀ m ∈ l' :: ls, m ≠ [] ∧ ∀ c ∈ m, c ≠ '\n' ∧ c ≠ '\x0d' :=
      fun m hm => h m (List.mem_cons_of_mem l hm)
    have hshape : l ++ ['\n', '\n'] ++ List.intercalate ['\n', '\n'] (l' :: ls) =
        l ++ '\n' :: '\n' :: List.intercalate ['\n', '\n'] (l' :: ls) := by
      rw [List.append_assoc]
      rfl
    have hlen : (l ++ ['\n', '\n'] ++ List.intercalate ['\n', '\n'] (l' :: ls)).length + k =
        l.length + ((List.intercalate ['\n', '\n'] (l' :: ls)).length + k + 1) + 1 := by
      simp [List.length_append]
      omega
    rw [hlen, hshape,
      splitlinesF_append_nl l hl.2 ((List.intercalate ['\n', '\n'] (l' :: ls)).length + k + 1),
      splitlinesF_nl,
      splitlinesF_intercalate (l' :: ls) hrest k]
    rfl

theorem interleave_strip_filter :
    ∀ (ls : List (List Char)), (∀ l ∈ ls, l ≠ [] ∧ pyStripL l = l) →
      ((interleaveBlank ls).map pyStripL).filter (fun t => t ≠ []) = ls
  | [], _ => rfl
  | [l], h => by
    have hl := h l (List.mem_singleton.2 rfl)
    rw [interleaveBlank, List.map_cons, hl.2, List.map_nil, List.filter_cons,
      if_pos (by simpa using hl.1)]
    rfl
  | l :: l' :: ls, h => by
    have hl := h l (List.mem_cons_self _ _)
    have hrest : ∀ m ∈ l' :: ls, m ≠ [] ∧ pyStripL m = m :=
      fun m hm => h m (List.mem_cons_of_mem l hm)
    rw [interleaveBlank, List.map_cons, List.map_cons, hl.2,
      show pyStripL [] = [] from rfl, List.filter_cons, List.filter_cons,
      if_pos (by simpa using hl.1), if_neg (by simp),
      interleave_strip_filter (l' :: ls) hrest]

/-- Whitespace normalisation is idempotent: its output is stripped
non-empty break-free lines joined by blank-line separators, and running
it again reproduces them. -/
theorem normalizeLinesL_idem (t : List Char) :
    normalizeLinesL (normalizeLinesL t) = normalizeLinesL t := by
  set ls := ((splitlinesL t).map pyStripL).filter (fun ln => ln ≠ []) with hls
  have h1 : ∀ l ∈ ls, l ≠ [] := by
    intro l hl
    rw [hls] at hl
    simpa using List.of_mem_filter hl
  have h2 : ∀ l ∈ ls, pyStripL l = l := by
    intro l hl
    rw [hls] at hl
    obtain ⟨l0, _, he⟩ := List.mem_map.1 (List.mem_of_mem_filter hl)
    rw [← he]
    exact pyStripL_idem l0
  have h3 : ∀ l ∈ ls, ∀ c ∈ l, c ≠ '\n' ∧ c ≠ '\x0d' := by
    intro l hl c hc
    rw [hls] at hl
    obtain ⟨l0, hl0, he⟩ := List.mem_map.1 (List.mem_of_mem_filter hl)
    exact splitlinesF_no_break t.length t (Nat.le_refl _) l0 hl0 c
      (mem_pyStripL (he ▸ hc))
  show normalizeLinesL (List.intercalate ['\n', '\n'] ls) =
    List.intercalate ['\n', '\n'] ls
  unfold normalizeLinesL
  have hsp : splitlinesL (List.intercalate ['\n', '\n'] ls) = interleaveBlank ls := by
    unfold splitlinesL
    have := splitlinesF_intercalate ls (fun l hl => ⟨h1 l hl, h3 l hl⟩) 0
    rwa [Nat.add_zero] at this
  rw [hsp, interleave_strip_filter ls (fun l hl => ⟨h1 l hl, h2 l hl⟩)]

/-- C9 counterexample: `html_to_text` is not idempotent.  A doubly
encoded ampersand decodes one level per pass: the first pass turns
`"a &amp;amp; b"` into `"a &amp; b"`, the second — fed that output as
input — into `"a & b"`. -/
theorem html_to_text_not_idempotent :
    html_to_text "a &amp;amp; b" = "a &amp; b" ∧
      html_to_text (html_to_text "a &amp;amp; b") = "a & b" ∧
      html_to_text (html_to_text "a &amp;amp; b") ≠ html_to_text "a &amp;amp; b" := by
  refine ⟨by decide, by decide, by decide⟩

/-- C9 (amended): `html_to_text` is idempotent on every input whose
first-pass output contains no `&` and no `<` — then re-parsing the
output cannot decode a character reference or see new markup.  This is
a sufficient condition, not a characterisation: an `&` that forms no
reference (`"a & b"`) is also left alone.  (The
whitespace-normalisation half is idempotent unconditionally,
`normalizeLinesL_idem`.) -/
theorem html_to_text_idempotent_on_clean (x : String)
    (h : ∀ c ∈ (html_to_text x).data, c ≠ '&' ∧ c ≠ '<') :
    html_to_text (html_to_text x) = html_to_text x := by
  have hnoamp : '&' ∉ (html_to_text x).data := fun hc => (h '&' hc).1 rfl
  have hnolt : '<' ∉ (html_to_text x).data := fun hc => (h '<' hc).2 rfl
  have h1 : getTextOfMarkup (html_to_text x) = (html_to_text x).data := by
    unfold getTextOfMarkup
    rw [dataChunks_no_lt hnolt, List.map_singleton,
      decodeEntitiesL_no_amp hnoamp, intercalate_single]
  show (⟨normalizeLinesL (getTextOfMarkup (html_to_text x))⟩ : String) = html_to_text x
  rw [h1]
  have h2 : (html_to_text x).data = normalizeLinesL (getTextOfMarkup x) := rfl
  rw [h2, normalizeLinesL_idem]
  rfl

/-- C9 witness: a markup input whose normalised text is clean of `&`
and `<`, on which the normaliser is idempotent. -/
theorem html_to_text_idempotent_witness :
    html_to_text (html_to_text "hi <b>there</b>") = html_to_text "hi <b>there</b>" :=
  html_to_text_idempotent_on_clean "hi <b>there</b>" (by decide)
